import Mathlib

namespace GeoLoc

/-- Decision variables of the PuLP models in locationanalysis.py:
`x i j` are the two-index binary variables (assignment, or facility-open in the
matrix solvers), `xf j` the one-index `X` facility variables of raw LSCP/MCLP,
`yf j` the one-index `y`/`Y` facility variables, `yc i` the per-demand `Y`
coverage variables of raw MCLP, and `z` the continuous radius variable `Z`. -/
inductive Var where
  | x : Nat → Nat → Var
  | xf : Nat → Var
  | yf : Nat → Var
  | yc : Nat → Var
  | z : Var
  deriving DecidableEq

/-- One linear term coeff * variable, as appended by the model-building loops. -/
structure LinTerm where
  coeff : ℚ
  v : Var
  deriving DecidableEq

/-- A linear expression: a list of terms (in the order the code appends them)
plus a constant. -/
structure LinExp where
  terms : List LinTerm
  const : ℚ
  deriving DecidableEq

/-- Comparison operator of a PuLP constraint. -/
inductive Rel where
  | le
  | ge
  | eq
  deriving DecidableEq

/-- A linear constraint lhs `rel` rhs, as added via `problem += ...`. -/
structure Constr where
  lhs : LinExp
  rel : Rel
  rhs : LinExp
  deriving DecidableEq

/-- All problems in the file are built with sense `pulp.LpMinimize`; a model is
its objective expression plus its constraint list, in order of addition. -/
structure Model where
  objective : LinExp
  constrs : List Constr
  deriving DecidableEq

/-- Value of a linear expression under an assignment of the variables. -/
def evalExp (ν : Var → ℚ) (e : LinExp) : ℚ :=
  (e.terms.map (fun t => t.coeff * ν t.v)).sum + e.const

/-- An assignment satisfies a single constraint. -/
def satisfies (ν : Var → ℚ) (c : Constr) : Prop :=
  match c.rel with
  | .le => evalExp ν c.lhs ≤ evalExp ν c.rhs
  | .ge => evalExp ν c.lhs ≥ evalExp ν c.rhs
  | .eq => evalExp ν c.lhs = evalExp ν c.rhs

instance (ν : Var → ℚ) (c : Constr) : Decidable (satisfies ν c) :=
  match c with
  | ⟨l, .le, r⟩ => inferInstanceAs (Decidable (evalExp ν l ≤ evalExp ν r))
  | ⟨l, .ge, r⟩ => inferInstanceAs (Decidable (evalExp ν l ≥ evalExp ν r))
  | ⟨l, .eq, r⟩ => inferInstanceAs (Decidable (evalExp ν l = evalExp ν r))

/-- An assignment satisfies every constraint of a list (feasibility). -/
def SatAll (ν : Var → ℚ) (cs : List Constr) : Prop :=
  ∀ c ∈ cs, satisfies ν c

instance (ν : Var → ℚ) (cs : List Constr) : Decidable (SatAll ν cs) :=
  List.decidableBAll _ cs

/-- One row of the sorted OD-list dataframe `df` used by the raw-list nodes
(PmedianNode, LSCPNode, MCLPNode): demand id, supply id, demand population and
travel cost columns.  The geometry columns play no role in model building. -/
structure ODRow where
  did : Nat
  sid : Nat
  popu : ℚ
  cost : ℚ
  deriving DecidableEq

/-- Cost lookup `df[(df[DemandID]==i) & (df[SupplyID]==j)][ODcost].values[0]`:
the first matching row's cost, or failure when no row matches. -/
def lookupCost (rows : List ODRow) (i j : Nat) : Option ℚ :=
  (rows.find? (fun r => r.did == i && r.sid == j)).map (fun r => r.cost)

/-- Population of demand point i: `groupby(DemandID).first()` takes the first
row of each demand id in the sorted dataframe. -/
def demandPopu (rows : List ODRow) (i : Nat) : ℚ :=
  ((rows.find? (fun r => r.did == i)).map (fun r => r.popu)).getD 0

/-- Value of the derived `within` column for one row:
`df.loc[(df[ODcost] <= threshold), "within"] = 1` with default 0. -/
def rowWithin (th : ℚ) (r : ODRow) : ℚ :=
  if r.cost ≤ th then 1 else 0

/-- Lookup of the `within` value for the pair (i, j): first matching row's
within value, or failure when no row matches. -/
def lookupWithin (rows : List ODRow) (th : ℚ) (i j : Nat) : Option ℚ :=
  (rows.find? (fun r => r.did == i && r.sid == j)).map (rowWithin th)

/-- Fail-fast loop over a list: apply f to each element in order, aborting the
whole computation at the first failure (the Python loops raise on a failed
lookup and otherwise collect one item per iteration). -/
def mapO {α β : Type} (f : α → Option β) : List α → Option (List β)
  | [] => some []
  | a :: l =>
    match f a with
    | none => none
    | some b =>
      match mapO f l with
      | none => none
      | some bs => some (b :: bs)

/-- Objective terms of PmedianNode.execute (lines 168-185): the string list X
enumerates pairs (i, j) in i-major order; each contributes the coefficient
popu_i * cost_ij on variable x i j.  The lookup `.values[0]` fails with an
IndexError when a pair has no row, so term construction is partial. -/
def pmedianObjTerms (rows : List ODRow) (n m : Nat) : Option (List LinTerm) :=
  mapO
    (fun p => (lookupCost rows p.1 p.2).map
      (fun c => ⟨demandPopu rows p.1 * c, Var.x p.1 p.2⟩))
    ((List.range n).flatMap (fun i => (List.range m).map (fun j => (i, j))))

/-- Facility-count constraint over the one-index y variables: Σ_j y_j = P. -/
def countYfConstr (m : Nat) (P : ℚ) : Constr :=
  ⟨⟨(List.range m).map (fun j => ⟨1, Var.yf j⟩), 0⟩, Rel.eq, ⟨[], P⟩⟩

/-- Facility-count constraint of raw MCLP over the X variables: Σ_j X_j = P. -/
def countXfConstr (m : Nat) (P : ℚ) : Constr :=
  ⟨⟨(List.range m).map (fun j => ⟨1, Var.xf j⟩), 0⟩, Rel.eq, ⟨[], P⟩⟩

/-- Single-assignment constraint for demand i: Σ_j x_ij = 1. -/
def rowSumConstr (m i : Nat) : Constr :=
  ⟨⟨(List.range m).map (fun j => ⟨1, Var.x i j⟩), 0⟩, Rel.eq, ⟨[], 1⟩⟩

/-- Linking constraint of PmedianNode (lines 195-200), written there as
x_ij - y_j ≤ 0. -/
def linkDiffConstr (i j : Nat) : Constr :=
  ⟨⟨[⟨1, Var.x i j⟩, ⟨-1, Var.yf j⟩], 0⟩, Rel.le, ⟨[], 0⟩⟩

/-- Linking constraint of the solver nodes, written there as x_ij ≤ y_j. -/
def linkLeConstr (i j : Nat) : Constr :=
  ⟨⟨[⟨1, Var.x i j⟩], 0⟩, Rel.le, ⟨[⟨1, Var.yf j⟩], 0⟩⟩

/-- Model built by PmedianNode.execute (lines 156-202): minimize
Σ popu_i·cost_ij·x_ij subject to Σ_j y_j = P, Σ_j x_ij = 1 per demand, and the
x-y links, added in that order. -/
def pmedianBuild (rows : List ODRow) (n m : Nat) (P : ℕ) : Option Model :=
  (pmedianObjTerms rows n m).map (fun ts =>
    ⟨⟨ts, 0⟩,
      countYfConstr m (P : ℚ)
        :: ((List.range n).map (fun i => rowSumConstr m i)
          ++ (List.range n).flatMap (fun i =>
              (List.range m).map (fun j => linkDiffConstr i j)))⟩)

/-- Execution skeleton of PmedianNode.execute: model construction happens
first, and only when every lookup succeeded is the black-box solver reached. -/
def pmedianExecute (solve : Model → Var → ℚ) (rows : List ODRow) (n m : Nat)
    (P : ℕ) : Except String (Var → ℚ) :=
  match pmedianBuild rows n m P with
  | none => .error "IndexError: missing OD pair"
  | some M => .ok (solve M)

/-- Coverage terms for demand i built by the inner j loop of LSCPNode/MCLPNode:
within_ij * X_j for each candidate j, failing when a pair has no row. -/
def covTermsXf (rows : List ODRow) (th : ℚ) (m i : Nat) : Option (List LinTerm) :=
  mapO (fun j => (lookupWithin rows th i j).map (fun w => ⟨w, Var.xf j⟩))
    (List.range m)

/-- The LSCP coverage constraint for demand i: Σ_j within_ij·X_j ≥ 1. -/
def covConstrLSCP (rows : List ODRow) (th : ℚ) (m i : Nat) : Option Constr :=
  (covTermsXf rows th m i).map (fun ts => ⟨⟨ts, 0⟩, Rel.ge, ⟨[], 1⟩⟩)

/-- Model built by LSCPNode.execute (lines 357-386): minimize Σ_j X_j.  The
`for i` loop at lines 377-383 only rebinds the local list `constrain`; the
single `problem +=` at line 384 sits outside that loop at the function's
indentation level, so exactly one coverage constraint — the one for the final
demand point — is added to the problem (and an empty demand range would leave
`constrain` unbound). -/
def lscpBuild (rows : List ODRow) (th : ℚ) (n m : Nat) : Option Model := do
  let allTerms ← mapO (covTermsXf rows th m) (List.range n)
  let lastTerms ← allTerms.getLast?
  pure ⟨⟨(List.range m).map (fun j => ⟨1, Var.xf j⟩), 0⟩,
    [⟨⟨lastTerms, 0⟩, Rel.ge, ⟨[], 1⟩⟩]⟩

/-- Coverage constraint of MCLPNode for demand i (lines 591-599):
Σ_j within_ij·X_j + Y_i ≥ 1, the Y term appended after the j loop. -/
def covConstrMCLP (rows : List ODRow) (th : ℚ) (m i : Nat) : Option Constr :=
  (covTermsXf rows th m i).map (fun ts =>
    ⟨⟨ts ++ [⟨1, Var.yc i⟩], 0⟩, Rel.ge, ⟨[], 1⟩⟩)

/-- Model built by MCLPNode.execute (lines 566-599): sense LpMinimize with
objective Σ_i popu_i·Y_i (the plain, un-negated sum), then Σ_j X_j = P, then
one coverage constraint per demand point. -/
def mclpBuild (rows : List ODRow) (th : ℚ) (n m : Nat) (P : ℕ) : Option Model := do
  let covs ← mapO (covConstrMCLP rows th m) (List.range n)
  pure ⟨⟨(List.range n).map (fun i => ⟨demandPopu rows i, Var.yc i⟩), 0⟩,
    countXfConstr m (P : ℚ) :: covs⟩

/-- Row count of a matrix given as a list of columns (pandas shape[0]). -/
def matRows (cols : List (List ℚ)) : Nat := (cols.headD []).length

/-- Cell access cost_matrix.iloc[i][j] on a column-list matrix. -/
def matCost (cols : List (List ℚ)) (i j : Nat) : ℚ := (cols.getD j []).getD i 0

/-- Cutoff constraint of MCLPSolverNode for demand i (lines 1013-1019):
Σ_j cost_ij·x_ij ≤ cutoff. -/
def cutoffConstr (cols2 : List (List ℚ)) (cutoff : ℚ) (candidate i : Nat) : Constr :=
  ⟨⟨(List.range candidate).map (fun j => ⟨matCost cols2 i j, Var.x i j⟩), 0⟩,
    Rel.le, ⟨[], cutoff⟩⟩

/-- Forced-open constraint y_j = 1 on the required column. -/
def forcedConstr (j : Nat) : Constr :=
  ⟨⟨[⟨1, Var.yf j⟩], 0⟩, Rel.eq, ⟨[], 1⟩⟩

/-- Model built by MCLPSolverNode.execute (lines 966-1023).  P is incremented
and the Required column appended as the last column only when a required column
is supplied, but the forced-open constraint `prob += y[nrequire] == 1` at line
1023 is added unconditionally; with no required column the name `nrequire` was
never assigned, so execution fails with a NameError there. -/
def mclpSolverBuild (popu : List ℚ) (required : Option (List ℚ))
    (cols : List (List ℚ)) (P0 : ℕ) (cutoff : ℚ) : Except String Model :=
  let P : ℚ := if required.isSome then (P0 : ℚ) + 1 else (P0 : ℚ)
  let demand := matRows cols
  let cols2 := match required with
    | some rc => cols ++ [rc]
    | none => cols
  let candidate := cols2.length
  let nrequire : Option Nat := match required with
    | some _ => some (candidate - 1)
    | none => none
  let obj : LinExp :=
    ⟨(List.range demand).flatMap (fun i =>
      (List.range candidate).map (fun j => ⟨popu.getD i 0, Var.x i j⟩)), 0⟩
  let cs :=
    (List.range demand).map (fun i => rowSumConstr candidate i)
      ++ (List.range candidate).flatMap (fun j =>
          (List.range demand).map (fun i => linkLeConstr i j))
      ++ (List.range demand).map (fun i => cutoffConstr cols2 cutoff candidate i)
      ++ [countYfConstr candidate P]
  match nrequire with
  | some nr => .ok ⟨obj, cs ++ [forcedConstr nr]⟩
  | none => .error "NameError: name nrequire is not defined"

/-- Model built by PmediaSolverNode.execute (lines 828-882): minimize
Σ x_ij·cost_ij·popu_i with single assignment, links, facility count, and the
forced-open constraint added only when a required column is supplied. -/
def pmediaSolverBuild (popu : List ℚ) (required : Option (List ℚ))
    (cols : List (List ℚ)) (P0 : ℕ) : Model :=
  let P : ℚ := if required.isSome then (P0 : ℚ) + 1 else (P0 : ℚ)
  let demand := matRows cols
  let cols2 := match required with
    | some rc => cols ++ [rc]
    | none => cols
  let candidate := cols2.length
  let obj : LinExp :=
    ⟨(List.range demand).flatMap (fun i =>
      (List.range candidate).map (fun j =>
        ⟨matCost cols2 i j * popu.getD i 0, Var.x i j⟩)), 0⟩
  let cs :=
    (List.range demand).map (fun i => rowSumConstr candidate i)
      ++ (List.range candidate).flatMap (fun j =>
          (List.range demand).map (fun i => linkLeConstr i j))
      ++ [countYfConstr candidate P]
  match required with
  | some _ => ⟨obj, cs ++ [forcedConstr (candidate - 1)]⟩
  | none => ⟨obj, cs⟩

/-- A named matrix column (pandas column label and values). -/
structure NCol where
  name : String
  vals : List ℚ
  deriving DecidableEq

/-- Column move of PcenterSolverNode (lines 707-711): drop the column named
"Required" and re-append it, making it the last column. -/
def moveRequiredLast (cols : List NCol) : List NCol :=
  cols.filter (fun c => c.name != "Required")
    ++ cols.filter (fun c => c.name == "Required")

/-- Cell access on a named-column matrix. -/
def matCostN (cols : List NCol) (i j : Nat) : ℚ :=
  ((cols.getD j ⟨"", []⟩).vals).getD i 0

/-- Radius constraint of PcenterSolverNode for demand i (lines 736-742):
Σ_j cost_ij·x_ij ≤ Z. -/
def zBoundConstr (cols2 : List NCol) (candidate i : Nat) : Constr :=
  ⟨⟨(List.range candidate).map (fun j => ⟨matCostN cols2 i j, Var.x i j⟩), 0⟩,
    Rel.le, ⟨[⟨1, Var.z⟩], 0⟩⟩

/-- Model built by PcenterSolverNode.execute (lines 694-750): minimize Z.  The
input matrix already holds the required-distance column (renamed "Required");
when a required column is configured it is moved to the last position, P is
incremented by one, and y of that last column is forced to 1. -/
def pcenterBuild (cols : List NCol) (required : Bool) (P0 : ℕ) : Model :=
  let P : ℚ := if required then (P0 : ℚ) + 1 else (P0 : ℚ)
  let demand := (cols.headD ⟨"", []⟩).vals.length
  let cols2 := if required then moveRequiredLast cols else cols
  let candidate := cols2.length
  let cs :=
    (List.range demand).map (fun i => rowSumConstr candidate i)
      ++ (List.range candidate).flatMap (fun j =>
          (List.range demand).map (fun i => linkLeConstr i j))
      ++ (List.range demand).map (fun i => zBoundConstr cols2 candidate i)
      ++ [countYfConstr candidate P]
  if required then ⟨⟨[⟨1, Var.z⟩], 0⟩, cs ++ [forcedConstr (candidate - 1)]⟩
  else ⟨⟨[⟨1, Var.z⟩], 0⟩, cs⟩

/-- Result extraction of PmedianNode (lines 207-214): iterate the x variables
in i-major, j-minor order and record j as demand i's assigned facility whenever
x_ij solved to 1 (a later hit would overwrite an earlier one). -/
def assignedSID (ν : Var → ℚ) (m i : Nat) : Option Nat :=
  (List.range m).foldl (fun acc j => if ν (Var.x i j) = 1 then some j else acc) none

/-- Open-facility id list of LSCPNode/MCLPNode (lines 394-401 and 608-614): the
candidate indices whose solved selection variable equals 1, in index order. -/
def openFacilities (ν : Var → ℚ) (m : Nat) : List Nat :=
  (List.range m).filter (fun j => decide (ν (Var.xf j) = 1))

/-- First-minimum scan over a row list: pandas idxmin returns the label of the
first row attaining the minimal value. -/
def idxminRow : List ODRow → Option ODRow
  | [] => none
  | r :: rs => some (rs.foldl (fun best r2 => if r2.cost < best.cost then r2 else best) r)

/-- Nearest-open-facility query of LSCPNode/MCLPNode (lines 403-411 and
616-624): among the rows of demand i whose supply id is an open facility, the
row of minimal cost, the first such row winning ties. -/
def nearestOpen (rows : List ODRow) (opens : List Nat) (i : Nat) : Option ODRow :=
  idxminRow (rows.filter (fun r => r.did == i && opens.contains r.sid))

/-- Chosen column of the solver nodes' output tables (lines 755-759, 888-892,
1031-1035): the solved y value of each candidate column, in column order. -/
def chosenList (ν : Var → ℚ) (candidate : Nat) : List ℚ :=
  (List.range candidate).map (fun j => ν (Var.yf j))

/-- Constraint list of an Except-valued build, empty on error. -/
def exceptConstrs : Except String Model → List Constr
  | .ok M => M.constrs
  | .error _ => []

/-- Constraint list of an Option-valued build, empty on failure. -/
def optConstrs : Option Model → List Constr
  | some M => M.constrs
  | none => []

/-- Objective of an Except-valued build, when it succeeded. -/
def exceptObj : Except String Model → Option LinExp
  | .ok M => some M.objective
  | .error _ => none

/-- Concrete OD list used to exhibit the LSCP constraint-loop slip: two demand
points (ids 0 and 1), one supply point (id 0), costs 5 and 20; with threshold
10 demand 0 is within reach of supply 0 and demand 1 is not. -/
def lscpRows : List ODRow := [⟨0, 0, 0, 5⟩, ⟨1, 0, 0, 20⟩]

/-- Concrete OD list with one row: demand 0 (population 5), supply 0, cost 3. -/
def mclpRows1 : List ODRow := [⟨0, 0, 5, 3⟩]

/-- The model MCLPNode builds on mclpRows1 with threshold 10 and P = 1. -/
def mclpM1 : Model :=
  ⟨⟨[⟨5, Var.yc 0⟩], 0⟩,
    [countXfConstr 1 1,
      ⟨⟨[⟨1, Var.xf 0⟩, ⟨1, Var.yc 0⟩], 0⟩, Rel.ge, ⟨[], 1⟩⟩]⟩

/-- Assignment opening every facility-selection variable and covering nothing
else. -/
def nuXfOpen : Var → ℚ := fun v =>
  match v with
  | Var.xf _ => 1
  | _ => 0

/-- Assignment valuing every variable at one. -/
def onesAssign : Var → ℚ := fun _ => 1

/-- Assignment for the matrix solvers: each demand assigned to column 0, every
facility open, radius 3. -/
def nuSolver : Var → ℚ := fun v =>
  match v with
  | Var.x _ j => if j = 0 then 1 else 0
  | Var.yf _ => 1
  | Var.z => 3
  | _ => 0

/-- The model MCLPSolverNode builds on demand [1], required column [2], cost
matrix [[3]], P = 1 and cutoff 10. -/
def mclpSolverM1 : Model :=
  ⟨⟨[⟨1, Var.x 0 0⟩, ⟨1, Var.x 0 1⟩], 0⟩,
    [rowSumConstr 2 0, linkLeConstr 0 0, linkLeConstr 0 1,
      cutoffConstr [[3], [2]] 10 2 0, countYfConstr 2 (((1 : ℕ) : ℚ) + 1),
      forcedConstr 1]⟩

/-- Concrete OD list for PmedianNode: one demand (population 2), one supply,
cost 7. -/
def pmedRows : List ODRow := [⟨0, 0, 2, 7⟩]

/-- The model PmedianNode builds on pmedRows with P = 1 (objective coefficient
written as the unreduced product popu · cost the loop forms). -/
def pmedModel : Model :=
  ⟨⟨[⟨(2 : ℚ) * 7, Var.x 0 0⟩], 0⟩,
    [countYfConstr 1 1, rowSumConstr 1 0, linkDiffConstr 0 0]⟩

/-- Named columns for PcenterSolverNode: candidate column A and the required
column, one demand row. -/
def pcenterCols : List NCol := [⟨"A", [3]⟩, ⟨"Required", [2]⟩]

/-- Concrete sorted OD list with a cost tie for demand 0 between supplies 0
and 1. -/
def tieRows : List ODRow :=
  [⟨0, 0, 0, 5⟩, ⟨0, 1, 0, 5⟩, ⟨1, 0, 0, 3⟩, ⟨1, 1, 0, 4⟩]

/-- Sum of a list of 0/1 rationals equals the number of ones in it. -/
lemma sum_binary_eq_countP (l : List ℚ) (h : ∀ q ∈ l, q = 0 ∨ q = 1) :
    l.sum = (l.countP (fun q => decide (q = 1)) : ℚ) := by
  induction l with
  | nil => simp
  | cons a l ih =>
    have ihl := ih (fun q hq => h q (List.mem_cons_of_mem a hq))
    rcases h a (List.mem_cons_self a l) with ha | ha <;>
      simp [List.countP_cons, ha, ihl] <;> push_cast <;> ring

/-- A predicate counted once on a range has a unique witness below the bound. -/
lemma countP_range_one {m : Nat} {p : Nat → Bool}
    (h : (List.range m).countP p = 1) :
    ∃ j₀, j₀ < m ∧ p j₀ ∧ ∀ j < m, p j → j = j₀ := by
  rw [List.countP_eq_length_filter, List.length_eq_one] at h
  obtain ⟨a, ha⟩ := h
  have haf : a ∈ (List.range m).filter p := by rw [ha]; exact List.mem_cons_self a []
  rw [List.mem_filter, List.mem_range] at haf
  refine ⟨a, haf.1, haf.2, fun j hj hpj => ?_⟩
  have : j ∈ (List.range m).filter p := by
    rw [List.mem_filter, List.mem_range]; exact ⟨hj, hpj⟩
  rw [ha, List.mem_singleton] at this
  exact this

/-- The fail-fast loop fails as soon as one element fails. -/
lemma mapO_eq_none {α β : Type} (f : α → Option β) {l : List α} {a : α}
    (ha : a ∈ l) (hf : f a = none) : mapO f l = none := by
  induction l with
  | nil => cases ha
  | cons b l ih =>
    rcases List.mem_cons.mp ha with rfl | ha2
    · simp [mapO, hf]
    · cases hb : f b <;> simp [mapO, hb, ih ha2]

/-- Every source element of a successful fail-fast loop is mapped to some
element of the output. -/
lemma mapO_forall {α β : Type} {f : α → Option β} {l : List α}
    {ys : List β} (h : mapO f l = some ys) : ∀ a ∈ l, ∃ y ∈ ys, f a = some y := by
  induction l generalizing ys with
  | nil => intro a ha; cases ha
  | cons b l ih =>
    cases hb : f b with
    | none => simp [mapO, hb] at h
    | some y0 =>
      cases hl : mapO f l with
      | none => simp [mapO, hb, hl] at h
      | some ys0 =>
        simp only [mapO, hb, hl, Option.some.injEq] at h
        intro a ha
        rcases List.mem_cons.mp ha with rfl | ha2
        · exact ⟨y0, by rw [← h]; exact List.mem_cons_self y0 ys0, hb⟩
        · obtain ⟨y, hy, hfy⟩ := ih hl a ha2
          exact ⟨y, by rw [← h]; exact List.mem_cons_of_mem y0 hy, hfy⟩

/-- Every element of the output of a successful fail-fast loop comes from some
source element. -/
lemma mapO_mem {α β : Type} {f : α → Option β} {l : List α}
    {ys : List β} (h : mapO f l = some ys) : ∀ y ∈ ys, ∃ a ∈ l, f a = some y := by
  induction l generalizing ys with
  | nil =>
    simp only [mapO, Option.some.injEq] at h
    intro y hy; rw [← h] at hy; cases hy
  | cons b l ih =>
    cases hb : f b with
    | none => simp [mapO, hb] at h
    | some y0 =>
      cases hl : mapO f l with
      | none => simp [mapO, hb, hl] at h
      | some ys0 =>
        simp only [mapO, hb, hl, Option.some.injEq] at h
        intro y hy
        rw [← h] at hy
        rcases List.mem_cons.mp hy with rfl | hy2
        · exact ⟨b, List.mem_cons_self b l, hb⟩
        · obtain ⟨a, hal, hfa⟩ := ih hl y hy2
          exact ⟨a, List.mem_cons_of_mem b hal, hfa⟩

/-- A list of 0/1 rationals with sum at least one contains a one. -/
lemma sum_exists_one (l : List ℚ) (h : ∀ q ∈ l, q = 0 ∨ q = 1)
    (hs : 1 ≤ l.sum) : ∃ q ∈ l, q = 1 := by
  induction l with
  | nil => norm_num at hs
  | cons a l ih =>
    rcases h a (List.mem_cons_self a l) with ha | ha
    · rw [List.sum_cons, ha, zero_add] at hs
      obtain ⟨q, hq, h1⟩ := ih (fun q hq => h q (List.mem_cons_of_mem a hq)) hs
      exact ⟨q, List.mem_cons_of_mem a hq, h1⟩
    · exact ⟨a, List.mem_cons_self a l, ha⟩

/-- Summing a function over a range in which it vanishes except at one index. -/
lemma sum_single_range (m j₀ : Nat) (f : Nat → ℚ) (hj : j₀ < m)
    (h0 : ∀ j < m, j ≠ j₀ → f j = 0) : ((List.range m).map f).sum = f j₀ := by
  induction m with
  | zero => omega
  | succ m ih =>
    rw [List.range_succ, List.map_append, List.sum_append]
    by_cases hm : j₀ = m
    · subst hm
      have hz : ((List.range j₀).map f).sum = 0 := by
        apply List.sum_eq_zero
        intro x hx
        obtain ⟨j, hjr, rfl⟩ := List.mem_map.mp hx
        rw [List.mem_range] at hjr
        exact h0 j (by omega) (by omega)
      simp [hz]
    · have hj2 : j₀ < m := by omega
      rw [ih hj2 (fun j hjm hne => h0 j (by omega) hne)]
      have hfm : f m = 0 := h0 m (by omega) (fun hc => hm hc.symm)
      simp [hfm]

/-- Once the scan of PmedianNode's extraction holds the unique hit, later
iterations never change it. -/
lemma foldl_assign_keep (i : Nat) (ν : Var → ℚ) (l : List Nat) (j₀ : Nat)
    (huniq : ∀ j ∈ l, ν (Var.x i j) = 1 → j = j₀) :
    l.foldl (fun acc j => if ν (Var.x i j) = 1 then some j else acc) (some j₀)
      = some j₀ := by
  induction l with
  | nil => rfl
  | cons b l ih =>
    by_cases hb : ν (Var.x i b) = 1
    · have hbj : b = j₀ := huniq b (List.mem_cons_self b l) hb
      subst hbj
      simp only [List.foldl_cons, if_pos hb]
      exact ih (fun j hj => huniq j (List.mem_cons_of_mem b hj))
    · simp only [List.foldl_cons, if_neg hb]
      exact ih (fun j hj => huniq j (List.mem_cons_of_mem b hj))

/-- The scan of PmedianNode's extraction returns the unique index whose x
variable solved to one. -/
lemma foldl_assign (i : Nat) (ν : Var → ℚ) (l : List Nat) (acc : Option Nat)
    (j₀ : Nat) (hj : j₀ ∈ l) (h1 : ν (Var.x i j₀) = 1)
    (huniq : ∀ j ∈ l, ν (Var.x i j) = 1 → j = j₀) :
    l.foldl (fun acc j => if ν (Var.x i j) = 1 then some j else acc) acc
      = some j₀ := by
  induction l generalizing acc with
  | nil => cases hj
  | cons b l ih =>
    by_cases hb : ν (Var.x i b) = 1
    · have hbj : b = j₀ := huniq b (List.mem_cons_self b l) hb
      simp only [List.foldl_cons, if_pos hb]
      rw [hbj]
      exact foldl_assign_keep i ν l j₀
        (fun j hjl => huniq j (List.mem_cons_of_mem _ hjl))
    · have hjl : j₀ ∈ l := by
        rcases List.mem_cons.mp hj with heq | h
        · rw [heq] at h1; exact absurd h1 hb
        · exact h
      simp only [List.foldl_cons, if_neg hb]
      exact ih acc hjl (fun j hjm => huniq j (List.mem_cons_of_mem b hjm))

/-- The strict-less scan of pandas idxmin returns a minimal element, and on
ties the earliest one, when the scanned list has strictly increasing supply
ids. -/
lemma foldl_min_spec (l : List ODRow) (best : ODRow)
    (hs : (best :: l).Pairwise (fun a b => a.sid < b.sid)) :
    (l.foldl (fun b r2 => if r2.cost < b.cost then r2 else b) best) ∈ best :: l ∧
    ∀ r2 ∈ best :: l,
      (l.foldl (fun b r2 => if r2.cost < b.cost then r2 else b) best).cost ≤ r2.cost ∧
      (r2.cost = (l.foldl (fun b r2 => if r2.cost < b.cost then r2 else b) best).cost →
        (l.foldl (fun b r2 => if r2.cost < b.cost then r2 else b) best).sid ≤ r2.sid) := by
  induction l generalizing best with
  | nil =>
    refine ⟨List.mem_cons_self best [], fun r2 hr2 => ?_⟩
    rw [List.mem_singleton] at hr2
    subst hr2
    exact ⟨le_refl _, fun _ => le_refl _⟩
  | cons a l ih =>
    have hpw := List.pairwise_cons.mp hs
    have hpw2 := List.pairwise_cons.mp hpw.2
    by_cases hc : a.cost < best.cost
    · -- the scan replaces best by a
      have hs2 : (a :: l).Pairwise (fun x y => x.sid < y.sid) := hpw.2
      obtain ⟨hmem, hmin⟩ := ih a hs2
      simp only [List.foldl_cons, if_pos hc]
      constructor
      · rcases List.mem_cons.mp hmem with h | h
        · rw [h]; exact List.mem_cons_of_mem best (List.mem_cons_self a l)
        · exact List.mem_cons_of_mem best (List.mem_cons_of_mem a h)
      · intro r2 hr2
        rcases List.mem_cons.mp hr2 with heq | hr2b
        · -- r2 is the old best: result is strictly cheaper, tie impossible
          rw [heq]
          have hra := (hmin a (List.mem_cons_self a l)).1
          exact ⟨le_of_lt (lt_of_le_of_lt hra hc),
            fun he => absurd he (ne_of_gt (lt_of_le_of_lt hra hc))⟩
        · exact hmin r2 hr2b
    · -- best survives the comparison with a
      have hs2 : (best :: l).Pairwise (fun x y => x.sid < y.sid) := by
        rw [List.pairwise_cons]
        exact ⟨fun b hb => hpw.1 b (List.mem_cons_of_mem a hb), hpw2.2⟩
      obtain ⟨hmem, hmin⟩ := ih best hs2
      simp only [List.foldl_cons, if_neg hc]
      constructor
      · rcases List.mem_cons.mp hmem with h | h
        · rw [h]; exact List.mem_cons_self best (a :: l)
        · exact List.mem_cons_of_mem best (List.mem_cons_of_mem a h)
      · intro r2 hr2
        rcases List.mem_cons.mp hr2 with heq | hr2b
        · rw [heq]; exact hmin best (List.mem_cons_self best l)
        rcases List.mem_cons.mp hr2b with heq | hr2c
        · -- r2 is the skipped element a
          rw [heq]
          have hbc : best.cost ≤ a.cost := le_of_not_lt hc
          have hres := (hmin best (List.mem_cons_self best l)).1
          refine ⟨le_trans hres hbc, fun he => ?_⟩
          -- a tie with a forces the result to be best itself
          have hrb : (l.foldl (fun b r3 => if r3.cost < b.cost then r3 else b) best).cost
              = best.cost := le_antisymm hres (he ▸ hbc)
          have hsid := (hmin best (List.mem_cons_self best l)).2 hrb.symm
          rcases List.mem_cons.mp hmem with h | h
          · rw [h]; exact le_of_lt (hpw.1 a (List.mem_cons_self a l))
          · exfalso
            have hlt : best.sid <
                (l.foldl (fun b r3 => if r3.cost < b.cost then r3 else b) best).sid :=
              hpw.1 _ (List.mem_cons_of_mem a h)
            omega
        · exact hmin r2 (List.mem_cons_of_mem best hr2c)

/-- Unfolding of the facility-count constraint over y variables. -/
lemma satisfies_countYf {ν : Var → ℚ} {m : Nat} {P : ℚ}
    (h : satisfies ν (countYfConstr m P)) :
    ((List.range m).map (fun j => ν (Var.yf j))).sum = P := by
  simp only [satisfies, countYfConstr, evalExp, List.map_map, Function.comp_def,
    one_mul, add_zero, List.map_nil, List.sum_nil, zero_add] at h
  exact h

/-- Unfolding of the facility-count constraint over the X variables. -/
lemma satisfies_countXf {ν : Var → ℚ} {m : Nat} {P : ℚ}
    (h : satisfies ν (countXfConstr m P)) :
    ((List.range m).map (fun j => ν (Var.xf j))).sum = P := by
  simp only [satisfies, countXfConstr, evalExp, List.map_map, Function.comp_def,
    one_mul, add_zero, List.map_nil, List.sum_nil, zero_add] at h
  exact h

/-- Unfolding of the single-assignment constraint. -/
lemma satisfies_rowSum {ν : Var → ℚ} {m i : Nat}
    (h : satisfies ν (rowSumConstr m i)) :
    ((List.range m).map (fun j => ν (Var.x i j))).sum = 1 := by
  simp only [satisfies, rowSumConstr, evalExp, List.map_map, Function.comp_def,
    one_mul, add_zero, List.map_nil, List.sum_nil, zero_add] at h
  exact h

/-- Unfolding of PmedianNode's x - y ≤ 0 linking constraint. -/
lemma satisfies_linkDiff {ν : Var → ℚ} {i j : Nat}
    (h : satisfies ν (linkDiffConstr i j)) :
    ν (Var.x i j) ≤ ν (Var.yf j) := by
  simp only [satisfies, linkDiffConstr, evalExp, List.map_cons, List.map_nil,
    List.sum_cons, List.sum_nil, one_mul, add_zero, zero_add] at h
  linarith

/-- Unfolding of the solver nodes' x ≤ y linking constraint. -/
lemma satisfies_linkLe {ν : Var → ℚ} {i j : Nat}
    (h : satisfies ν (linkLeConstr i j)) :
    ν (Var.x i j) ≤ ν (Var.yf j) := by
  simp only [satisfies, linkLeConstr, evalExp, List.map_cons, List.map_nil,
    List.sum_cons, List.sum_nil, one_mul, add_zero, zero_add] at h
  linarith

/-- Unfolding of the forced-open constraint. -/
lemma satisfies_forced {ν : Var → ℚ} {j : Nat}
    (h : satisfies ν (forcedConstr j)) : ν (Var.yf j) = 1 := by
  simp only [satisfies, forcedConstr, evalExp, List.map_cons, List.map_nil,
    List.sum_cons, List.sum_nil, one_mul, add_zero, zero_add] at h
  linarith

/-- Unfolding of MCLPSolverNode's cutoff constraint. -/
lemma satisfies_cutoff {ν : Var → ℚ} {cols2 : List (List ℚ)} {cutoff : ℚ}
    {candidate i : Nat} (h : satisfies ν (cutoffConstr cols2 cutoff candidate i)) :
    ((List.range candidate).map (fun j => matCost cols2 i j * ν (Var.x i j))).sum
      ≤ cutoff := by
  simp only [satisfies, cutoffConstr, evalExp, List.map_map, Function.comp_def,
    add_zero, List.map_nil, List.sum_nil, zero_add] at h
  exact h

/-- Binary sums over a range convert to counts of ones. -/
lemma count_eq_of_sum (f : Nat → ℚ) (m q : Nat)
    (hb : ∀ j, f j = 0 ∨ f j = 1)
    (hsum : ((List.range m).map f).sum = (q : ℚ)) :
    (List.range m).countP (fun j => decide (f j = 1)) = q := by
  rw [sum_binary_eq_countP] at hsum
  · rw [List.countP_map] at hsum
    exact_mod_cast hsum
  · intro x hx
    obtain ⟨j, _, rfl⟩ := List.mem_map.mp hx
    exact hb j

/-- A binary function summing to one over a range has a unique index equal to
one. -/
lemma unique_one_of_sum (f : Nat → ℚ) (m : Nat)
    (hb : ∀ j, f j = 0 ∨ f j = 1)
    (hsum : ((List.range m).map f).sum = 1) :
    ∃ j₀, j₀ < m ∧ f j₀ = 1 ∧ ∀ j < m, f j = 1 → j = j₀ := by
  have hc : (List.range m).countP (fun j => decide (f j = 1)) = 1 :=
    count_eq_of_sum f m 1 hb (by exact_mod_cast hsum)
  obtain ⟨j₀, hj₀, hp, huniq⟩ := countP_range_one hc
  exact ⟨j₀, hj₀, of_decide_eq_true hp,
    fun j hj hfj => huniq j hj (decide_eq_true hfj)⟩

/-- C9: in LSCP and MCLP threshold-based coverage, the derived within value
marks demand i as covered by candidate j exactly when cost ≤ threshold; the
boundary is inclusive, so a row whose cost equals the threshold is covered. -/
theorem within_inclusive_threshold (th : ℚ) (r : ODRow) :
    (rowWithin th r = 1 ↔ r.cost ≤ th) ∧
    rowWithin th ⟨r.did, r.sid, r.popu, th⟩ = 1 := by
  refine ⟨⟨fun h => ?_, fun h => ?_⟩, ?_⟩
  · by_contra hc
    simp [rowWithin, hc] at h
  · simp [rowWithin, h]
  · simp [rowWithin]

/-- C3: for every MCLP Solver input with no required-facility column, the run
fails: the forced-open constraint is added unconditionally at line 1023 and
references the never-assigned name nrequire (a NameError), so model
construction never succeeds without the forced constraint. -/
theorem mclpSolver_no_required_errors (popu : List ℚ) (cols : List (List ℚ))
    (P0 : ℕ) (cutoff : ℚ) :
    mclpSolverBuild popu none cols P0 cutoff =
      .error "NameError: name nrequire is not defined" := rfl

/-- C1: evaluation of the LSCP build on a two-demand instance: the build
succeeds, but the model holds exactly one coverage constraint — the one of
demand 1 (coefficient 0 since cost 20 exceeds threshold 10) — and the coverage
constraint of demand 0 is not among the model's constraints, refuting the
claim that every demand point gets a coverage constraint. -/
theorem lscp_coverage_only_last_demand :
    (lscpBuild lscpRows 10 2 1).isSome = true ∧
    covConstrLSCP lscpRows 10 1 0 =
      some ⟨⟨[⟨1, Var.xf 0⟩], 0⟩, Rel.ge, ⟨[], 1⟩⟩ ∧
    (∀ c ∈ optConstrs (lscpBuild lscpRows 10 2 1),
      covConstrLSCP lscpRows 10 1 0 ≠ some c) ∧
    optConstrs (lscpBuild lscpRows 10 2 1) =
      [⟨⟨[⟨0, Var.xf 0⟩], 0⟩, Rel.ge, ⟨[], 1⟩⟩] := by decide

/-- C2 counterexample: on a concrete one-demand, one-candidate instance with a
required column, the MCLP Solver build succeeds yet contains no ≥ constraint
at all — so no coverage constraint Σ_j within·x + y ≥ 1 exists for demand 0 —
and its objective is not the raw-MCLP weighted-coverage form. -/
theorem mclpSolver_not_raw_mclp_structure :
    (mclpSolverBuild [1] (some [2]) [[3]] 1 10).isOk = true ∧
    matRows [[3]] = 1 ∧
    (∀ c ∈ exceptConstrs (mclpSolverBuild [1] (some [2]) [[3]] 1 10),
      c.rel ≠ Rel.ge) ∧
    exceptObj (mclpSolverBuild [1] (some [2]) [[3]] 1 10) ≠
      some ⟨[⟨1, Var.yc 0⟩], 0⟩ := by decide

/-- Sums distribute over the flattened pair enumeration used by the objective
loops. -/
lemma sum_map_flatMap {α β : Type} (l : List α) (f : α → List β) (g : β → ℚ) :
    ((l.flatMap f).map g).sum = (l.map (fun a => ((f a).map g).sum)).sum := by
  induction l with
  | nil => simp
  | cons a l ih => simp [List.flatMap_cons, ih]

/-- C10: in raw OD-list mode, a required (demand, supply) pair with no row
makes the cost lookup fail during objective construction, so the whole run
aborts with an error no matter what the solver would do — the solve step is
never reached. -/
theorem missing_pair_aborts_before_solve (rows : List ODRow) (n m P : Nat)
    (i j : Nat) (hi : i < n) (hj : j < m)
    (hmissing : ∀ r ∈ rows, ¬(r.did = i ∧ r.sid = j)) :
    pmedianBuild rows n m P = none ∧
    ∀ solve, pmedianExecute solve rows n m P =
      .error "IndexError: missing OD pair" := by
  have hlk : lookupCost rows i j = none := by
    unfold lookupCost
    cases hf : rows.find? (fun r => r.did == i && r.sid == j) with
    | none => rfl
    | some r =>
      have hp := List.find?_some hf
      have hmem := List.mem_of_find?_eq_some hf
      simp only [Bool.and_eq_true, beq_iff_eq] at hp
      exact absurd hp (hmissing r hmem)
  have hterms : pmedianObjTerms rows n m = none := by
    unfold pmedianObjTerms
    apply mapO_eq_none _ (a := (i, j))
    · exact List.mem_flatMap.mpr
        ⟨i, List.mem_range.mpr hi, List.mem_map.mpr ⟨j, List.mem_range.mpr hj, rfl⟩⟩
    · simp [hlk]
  have hbuild : pmedianBuild rows n m P = none := by
    unfold pmedianBuild
    rw [hterms]
    rfl
  refine ⟨hbuild, fun solve => ?_⟩
  unfold pmedianExecute
  rw [hbuild]

/-- Concrete use of the missing-pair theorem: the empty OD list with one
demand and one supply point has no row for the pair (0, 0). -/
theorem missing_pair_aborts_before_solve_witness :
    (0 < 1 ∧ (∀ r ∈ ([] : List ODRow), ¬(r.did = 0 ∧ r.sid = 0))) ∧
    pmedianBuild [] 1 1 5 = none ∧
    pmedianExecute (fun _ _ => 0) [] 1 1 5 =
      .error "IndexError: missing OD pair" := by
  have h := missing_pair_aborts_before_solve [] 1 1 5 0 0 (by decide) (by decide)
    (fun r hr => absurd hr (List.not_mem_nil r))
  exact ⟨⟨by decide, fun r hr => absurd hr (List.not_mem_nil r)⟩, h.1, h.2 _⟩

/-- C8: the MCLP Solver objective Σ_ij popu_i·x_ij evaluates, on every
assignment satisfying the model's constraints (which force Σ_j x_ij = 1 for
each demand row), to the constant Σ_i popu_i, independent of which facilities
are chosen. -/
theorem mclpSolver_objective_constant (popu rc : List ℚ) (cols : List (List ℚ))
    (P0 : ℕ) (cutoff : ℚ) (M : Model) (ν : Var → ℚ)
    (hbuild : mclpSolverBuild popu (some rc) cols P0 cutoff = .ok M)
    (hsat : SatAll ν M.constrs) :
    evalExp ν M.objective =
      ((List.range (matRows cols)).map (fun i => popu.getD i 0)).sum := by
  simp only [mclpSolverBuild] at hbuild
  injection hbuild with hM
  subst hM
  have hrow : ∀ i ∈ List.range (matRows cols),
      ((List.range ((cols ++ [rc]).length)).map (fun j => ν (Var.x i j))).sum = 1 := by
    intro i hi
    apply satisfies_rowSum
    apply hsat
    simp only [List.mem_append]
    exact Or.inl (Or.inl (Or.inl (Or.inl (List.mem_map.mpr ⟨i, hi, rfl⟩))))
  simp only [evalExp, add_zero]
  rw [sum_map_flatMap]
  apply congrArg List.sum
  apply List.map_eq_map_iff.mpr
  intro i hi
  rw [List.map_map]
  have hcomp : ((fun t : LinTerm => t.coeff * ν t.v) ∘
      fun j => (⟨popu.getD i 0, Var.x i j⟩ : LinTerm))
      = fun j => popu.getD i 0 * ν (Var.x i j) := rfl
  rw [hcomp, List.sum_map_mul_left, hrow i hi, mul_one]

/-- A within value successfully looked up is zero or one. -/
lemma lookupWithin_binary {rows : List ODRow} {th : ℚ} {i j : Nat} {w : ℚ}
    (h : lookupWithin rows th i j = some w) : w = 0 ∨ w = 1 := by
  unfold lookupWithin at h
  cases hf : rows.find? (fun r => r.did == i && r.sid == j) with
  | none => rw [hf] at h; cases h
  | some r =>
    rw [hf] at h
    simp only [Option.map_some', Option.some.injEq] at h
    rw [← h]
    unfold rowWithin
    split
    · exact Or.inr rfl
    · exact Or.inl rfl

/-- C5 counterexample: on a concrete one-demand instance with weight 5 the raw
MCLP model's objective is the plain sum 5·Y₀ under sense LpMinimize, not the
negated form −5·Y₀ the claim describes. -/
theorem mclp_objective_not_negated :
    mclpBuild mclpRows1 10 1 1 1 = some mclpM1 ∧
    mclpM1.objective = ⟨[⟨5, Var.yc 0⟩], 0⟩ ∧
    mclpM1.objective ≠ ⟨[⟨-5, Var.yc 0⟩], 0⟩ := by decide

/-- C5 amended: the raw MCLP model minimizes the un-negated sum
Σ_i popu_i·Y_i subject to Σ_j X_j = P and the per-demand coverage constraints;
the Y variables act as uncovered indicators: any feasible binary point with
Y_i = 0 has an open facility within the threshold of demand i, so minimizing
the sum maximizes covered weight. -/
theorem mclp_objective_positive_min (rows : List ODRow) (th : ℚ) (n m : Nat)
    (P : ℕ) (M : Model) (ν : Var → ℚ)
    (hbuild : mclpBuild rows th n m P = some M)
    (hbx : ∀ j, ν (Var.xf j) = 0 ∨ ν (Var.xf j) = 1)
    (hsat : SatAll ν M.constrs) :
    M.objective = ⟨(List.range n).map (fun i => ⟨demandPopu rows i, Var.yc i⟩), 0⟩ ∧
    ((List.range m).map (fun j => ν (Var.xf j))).sum = (P : ℚ) ∧
    (∀ i < n, ν (Var.yc i) = 0 →
      ∃ j, j < m ∧ lookupWithin rows th i j = some 1 ∧ ν (Var.xf j) = 1) := by
  have hb2 : ∃ covs, mapO (covConstrMCLP rows th m) (List.range n) = some covs ∧
      M = ⟨⟨(List.range n).map (fun i => ⟨demandPopu rows i, Var.yc i⟩), 0⟩,
        countXfConstr m (P : ℚ) :: covs⟩ := by
    unfold mclpBuild at hbuild
    cases hmo : mapO (covConstrMCLP rows th m) (List.range n) with
    | none => rw [hmo] at hbuild; cases hbuild
    | some covs =>
      rw [hmo] at hbuild
      simp only [Option.bind_eq_bind, Option.some_bind, Option.pure_def,
        Option.some.injEq] at hbuild
      exact ⟨covs, rfl, hbuild.symm⟩
  obtain ⟨covs, hmo, hM⟩ := hb2
  subst hM
  refine ⟨rfl, satisfies_countXf (hsat _ (List.mem_cons_self _ _)), ?_⟩
  intro i hi hyc
  obtain ⟨c, hcmem, hci⟩ := mapO_forall hmo i (List.mem_range.mpr hi)
  obtain ⟨ts, hts, hc⟩ := Option.map_eq_some'.mp hci
  have hsatc := hsat c (List.mem_cons_of_mem _ hcmem)
  rw [← hc] at hsatc
  simp only [satisfies, evalExp, List.map_append, List.sum_append, List.map_cons,
    List.map_nil, List.sum_cons, List.sum_nil, one_mul, add_zero, zero_add] at hsatc
  rw [hyc, add_zero] at hsatc
  have hbinary : ∀ q ∈ ts.map (fun t => t.coeff * ν t.v), q = 0 ∨ q = 1 := by
    intro q hq
    obtain ⟨t, htmem, rfl⟩ := List.mem_map.mp hq
    obtain ⟨j, hjr, hfj⟩ := mapO_mem hts t htmem
    obtain ⟨w, hw, ht⟩ := Option.map_eq_some'.mp hfj
    rw [← ht]
    rcases lookupWithin_binary hw with h | h <;> rcases hbx j with h2 | h2 <;>
      simp [h, h2]
  obtain ⟨q, hqmem, hq1⟩ := sum_exists_one _ hbinary hsatc
  obtain ⟨t, htmem, hqt⟩ := List.mem_map.mp hqmem
  obtain ⟨j, hjr, hfj⟩ := mapO_mem hts t htmem
  obtain ⟨w, hw, ht⟩ := Option.map_eq_some'.mp hfj
  refine ⟨j, List.mem_range.mp hjr, ?_, ?_⟩
  · rcases lookupWithin_binary hw with h | h
    · exfalso
      rw [← ht] at hqt
      rw [← hqt, h, zero_mul] at hq1
      norm_num at hq1
    · rw [h] at hw; exact hw
  · rcases hbx j with h2 | h2
    · exfalso
      rw [← ht] at hqt
      rw [← hqt, h2, mul_zero] at hq1
      norm_num at hq1
    · exact h2

/-- Concrete use of the MCLP objective theorem on mclpRows1 with every
facility variable open. -/
theorem mclp_objective_positive_min_witness :
    (mclpBuild mclpRows1 10 1 1 1 = some mclpM1 ∧ SatAll nuXfOpen mclpM1.constrs) ∧
    (mclpM1.objective =
      ⟨(List.range 1).map (fun i => ⟨demandPopu mclpRows1 i, Var.yc i⟩), 0⟩ ∧
    ((List.range 1).map (fun j => nuXfOpen (Var.xf j))).sum = ((1 : ℕ) : ℚ) ∧
    (∀ i < 1, nuXfOpen (Var.yc i) = 0 →
      ∃ j, j < 1 ∧ lookupWithin mclpRows1 10 i j = some 1 ∧
        nuXfOpen (Var.xf j) = 1)) :=
  ⟨⟨by decide, by
      intro c hc
      fin_cases hc <;>
        norm_num [satisfies, evalExp, mclpM1, countXfConstr, nuXfOpen,
          List.range_succ]⟩,
    mclp_objective_positive_min mclpRows1 10 1 1 1 mclpM1 nuXfOpen (by decide)
      (fun j => Or.inr rfl) (by
        intro c hc
        fin_cases hc <;>
          norm_num [satisfies, evalExp, mclpM1, countXfConstr, nuXfOpen,
            List.range_succ])⟩

/-- C2 amended: instead of the raw MCLP structure, the MCLP Solver builds
assignment variables with Σ_j x_ij = 1 per demand, x ≤ y links, a hard
per-demand cutoff Σ_j cost_ij·x_ij ≤ cutoff, Σ_j y_j = P and a forced-open
last column: every feasible binary point assigns each demand row to a column
whose cost is within the cutoff. -/
theorem mclpSolver_hard_cutoff_assignment (popu rc : List ℚ)
    (cols : List (List ℚ)) (P0 : ℕ) (cutoff : ℚ) (M : Model) (ν : Var → ℚ)
    (hbuild : mclpSolverBuild popu (some rc) cols P0 cutoff = .ok M)
    (hbx : ∀ i j, ν (Var.x i j) = 0 ∨ ν (Var.x i j) = 1)
    (hsat : SatAll ν M.constrs) :
    ∀ i < matRows cols, ∃ j, j < (cols ++ [rc]).length ∧ ν (Var.x i j) = 1 ∧
      matCost (cols ++ [rc]) i j ≤ cutoff := by
  simp only [mclpSolverBuild] at hbuild
  injection hbuild with hM
  subst hM
  intro i hi
  have hirange := List.mem_range.mpr hi
  have hrow := satisfies_rowSum (hsat _ (by
    simp only [List.mem_append]
    exact Or.inl (Or.inl (Or.inl (Or.inl (List.mem_map.mpr ⟨i, hirange, rfl⟩))))))
  obtain ⟨j₀, hj₀, hone, huniq⟩ := unique_one_of_sum _ _ (hbx i) hrow
  have hcut := satisfies_cutoff (hsat _ (by
    simp only [List.mem_append]
    exact Or.inl (Or.inl (Or.inr (List.mem_map.mpr ⟨i, hirange, rfl⟩)))))
  refine ⟨j₀, hj₀, hone, ?_⟩
  have hz : ∀ j < (cols ++ [rc]).length, j ≠ j₀ →
      matCost (cols ++ [rc]) i j * ν (Var.x i j) = 0 := by
    intro j hj hne
    rcases hbx i j with h0 | h1
    · rw [h0, mul_zero]
    · exact absurd (huniq j hj h1) hne
  have hsum := sum_single_range ((cols ++ [rc]).length) j₀
    (fun j => matCost (cols ++ [rc]) i j * ν (Var.x i j)) hj₀ hz
  rw [hsum] at hcut
  have hco : matCost (cols ++ [rc]) i j₀ * ν (Var.x i j₀) ≤ cutoff := hcut
  rw [hone, mul_one] at hco
  exact hco

/-- Concrete use of the hard-cutoff theorem on the one-demand instance. -/
theorem mclpSolver_hard_cutoff_assignment_witness :
    (mclpSolverBuild [1] (some [2]) [[3]] 1 10 = .ok mclpSolverM1 ∧
      SatAll nuSolver mclpSolverM1.constrs) ∧
    (∀ i < matRows [[3]], ∃ j, j < ([[3], [2]] : List (List ℚ)).length ∧
      nuSolver (Var.x i j) = 1 ∧
      matCost [[3], [2]] i j ≤ 10) :=
  ⟨⟨rfl, by
      intro c hc
      fin_cases hc <;>
        norm_num [satisfies, evalExp, mclpSolverM1, rowSumConstr, linkLeConstr,
          cutoffConstr, countYfConstr, forcedConstr, matCost, nuSolver,
          List.range_succ]⟩,
    mclpSolver_hard_cutoff_assignment [1] [2] [[3]] 1 10 mclpSolverM1 nuSolver
      rfl
      (fun i j => by
        show (if j = 0 then (1 : ℚ) else 0) = 0 ∨ (if j = 0 then (1 : ℚ) else 0) = 1
        by_cases h : j = 0
        · simp [h]
        · simp [h])
      (by
        intro c hc
        fin_cases hc <;>
          norm_num [satisfies, evalExp, mclpSolverM1, rowSumConstr, linkLeConstr,
            cutoffConstr, countYfConstr, forcedConstr, matCost, nuSolver,
            List.range_succ])⟩

/-- Concrete use of the constant-objective theorem on the one-demand
instance. -/
theorem mclpSolver_objective_constant_witness :
    (mclpSolverBuild [1] (some [2]) [[3]] 1 10 = .ok mclpSolverM1 ∧
      SatAll nuSolver mclpSolverM1.constrs) ∧
    evalExp nuSolver mclpSolverM1.objective =
      ((List.range (matRows [[3]])).map (fun i => [(1 : ℚ)].getD i 0)).sum :=
  ⟨⟨rfl, by
      intro c hc
      fin_cases hc <;>
        norm_num [satisfies, evalExp, mclpSolverM1, rowSumConstr, linkLeConstr,
          cutoffConstr, countYfConstr, forcedConstr, matCost, nuSolver,
          List.range_succ]⟩,
    mclpSolver_objective_constant [1] [2] [[3]] 1 10 mclpSolverM1 nuSolver
      rfl
      (by
        intro c hc
        fin_cases hc <;>
          norm_num [satisfies, evalExp, mclpSolverM1, rowSumConstr, linkLeConstr,
            cutoffConstr, countYfConstr, forcedConstr, matCost, nuSolver,
            List.range_succ])⟩

/-- C6: on any optimal (feasible binary) solution of the raw-list P-median
model, every demand point has exactly one x variable set, the extraction scan
reads that assignment directly from x, and the number of facilities receiving
at least one assignment is at most P. -/
theorem pmedian_unique_assignment (rows : List ODRow) (n m P : Nat) (M : Model)
    (ν : Var → ℚ)
    (hbuild : pmedianBuild rows n m P = some M)
    (hbx : ∀ i j, ν (Var.x i j) = 0 ∨ ν (Var.x i j) = 1)
    (hby : ∀ j, ν (Var.yf j) = 0 ∨ ν (Var.yf j) = 1)
    (hsat : SatAll ν M.constrs) :
    (∀ i < n, ∃ j, j < m ∧ ν (Var.x i j) = 1 ∧
      (∀ j2 < m, ν (Var.x i j2) = 1 → j2 = j) ∧
      assignedSID ν m i = some j) ∧
    (List.range m).countP
        (fun j => decide (∃ i ∈ List.range n, ν (Var.x i j) = 1)) ≤ P := by
  obtain ⟨ts, hts, hM⟩ := Option.map_eq_some'.mp hbuild
  have hcs : M.constrs = countYfConstr m (P : ℚ)
      :: ((List.range n).map (fun i => rowSumConstr m i)
        ++ (List.range n).flatMap (fun i =>
            (List.range m).map (fun j => linkDiffConstr i j))) := by
    rw [← hM]
  constructor
  · intro i hi
    have hmem : rowSumConstr m i ∈ M.constrs := by
      rw [hcs]
      exact List.mem_cons_of_mem _
        (List.mem_append_left _ (List.mem_map.mpr ⟨i, List.mem_range.mpr hi, rfl⟩))
    have hsum := satisfies_rowSum (hsat _ hmem)
    obtain ⟨j₀, hj₀, hone, huniq⟩ :=
      unique_one_of_sum (fun j => ν (Var.x i j)) m (hbx i) hsum
    exact ⟨j₀, hj₀, hone, huniq,
      foldl_assign i ν (List.range m) none j₀ (List.mem_range.mpr hj₀) hone
        (fun j hj => huniq j (List.mem_range.mp hj))⟩
  · have hcount : satisfies ν (countYfConstr m (P : ℚ)) :=
      hsat _ (by rw [hcs]; exact List.mem_cons_self _ _)
    have hyP : (List.range m).countP (fun j => decide (ν (Var.yf j) = 1)) = P :=
      count_eq_of_sum _ m P hby (satisfies_countYf hcount)
    rw [← hyP]
    apply List.countP_mono_left
    intro j hj hused
    obtain ⟨i, hin, hx1⟩ := of_decide_eq_true hused
    have hlink : linkDiffConstr i j ∈ M.constrs := by
      rw [hcs]
      exact List.mem_cons_of_mem _
        (List.mem_append_right _
          (List.mem_flatMap.mpr ⟨i, hin, List.mem_map.mpr ⟨j, hj, rfl⟩⟩))
    have hle := satisfies_linkDiff (hsat _ hlink)
    rw [hx1] at hle
    rcases hby j with h0 | h1
    · rw [h0] at hle; norm_num at hle
    · exact decide_eq_true h1

/-- Concrete use of the P-median assignment theorem on the one-pair instance
with every variable at one. -/
theorem pmedian_unique_assignment_witness :
    (pmedianBuild pmedRows 1 1 1 = some pmedModel ∧
      SatAll onesAssign pmedModel.constrs) ∧
    ((∀ i < 1, ∃ j, j < 1 ∧ onesAssign (Var.x i j) = 1 ∧
      (∀ j2 < 1, onesAssign (Var.x i j2) = 1 → j2 = j) ∧
      assignedSID onesAssign 1 i = some j) ∧
    (List.range 1).countP
        (fun j => decide (∃ i ∈ List.range 1, onesAssign (Var.x i j) = 1)) ≤ 1) :=
  ⟨⟨rfl, by
      intro c hc
      fin_cases hc <;>
        norm_num [satisfies, evalExp, pmedModel, countYfConstr, rowSumConstr,
          linkDiffConstr, onesAssign, List.range_succ]⟩,
    pmedian_unique_assignment pmedRows 1 1 1 pmedModel onesAssign rfl
      (fun _ _ => Or.inr rfl) (fun _ => Or.inr rfl)
      (by
        intro c hc
        fin_cases hc <;>
          norm_num [satisfies, evalExp, pmedModel, countYfConstr, rowSumConstr,
            linkDiffConstr, onesAssign, List.range_succ])⟩

/-- From the count constraint Σ_j y_j = P0 + 1, the forced-open constraint on
the last column, and binary y values: the last Chosen entry is 1 and exactly
P0 of the other columns are chosen. -/
lemma chosen_count (ν : Var → ℚ) (candidate : Nat) (P0 : ℕ)
    (hby : ∀ j, ν (Var.yf j) = 0 ∨ ν (Var.yf j) = 1)
    (hcount : satisfies ν (countYfConstr candidate ((P0 : ℚ) + 1)))
    (hforced : satisfies ν (forcedConstr (candidate - 1))) :
    (chosenList ν candidate).getLast? = some 1 ∧
    (List.range (candidate - 1)).countP
      (fun j => decide (ν (Var.yf j) = 1)) = P0 := by
  have hsum := satisfies_countYf hcount
  have hfc := satisfies_forced hforced
  cases candidate with
  | zero =>
    exfalso
    rw [List.range_zero, List.map_nil, List.sum_nil] at hsum
    have hge : (0 : ℚ) ≤ (P0 : ℚ) := Nat.cast_nonneg P0
    linarith
  | succ c =>
    have hc1 : ν (Var.yf c) = 1 := hfc
    constructor
    · unfold chosenList
      rw [List.range_succ, List.map_append]
      simp [List.getLast?_concat, hc1]
    · have hsum2 : ((List.range (c + 1)).map (fun j => ν (Var.yf j))).sum
          = ((P0 + 1 : ℕ) : ℚ) := by
        rw [hsum]; push_cast; ring
      have hcnt := count_eq_of_sum (fun j => ν (Var.yf j)) (c + 1) (P0 + 1) hby hsum2
      rw [List.range_succ, List.countP_append] at hcnt
      have hone : List.countP (fun j => decide (ν (Var.yf j) = 1)) [c] = 1 := by
        simp [List.countP_cons, hc1]
      rw [hone] at hcnt
      simp only [Nat.add_sub_cancel]
      exact Nat.add_right_cancel hcnt

/-- Moving the Required column to the back preserves the column count. -/
lemma moveRequiredLast_length (cols : List NCol) :
    (moveRequiredLast cols).length = cols.length := by
  have key : ∀ l : List NCol,
      (l.filter (fun c => c.name != "Required")).length
        + (l.filter (fun c => c.name == "Required")).length = l.length := by
    intro l
    induction l with
    | nil => rfl
    | cons a l ih =>
      by_cases h : (a.name == "Required") = true
      · simp [List.filter_cons, h, bne] at ih ⊢
        omega
      · simp [List.filter_cons, h, bne] at ih ⊢
        omega
  unfold moveRequiredLast
  rw [List.length_append]
  exact key cols

/-- Constraint list of the P-center solver build with a required column. -/
lemma pcenterBuild_true_constrs (cols : List NCol) (P0 : ℕ) :
    (pcenterBuild cols true P0).constrs =
      ((List.range (cols.headD ⟨"", []⟩).vals.length).map
          (fun i => rowSumConstr (moveRequiredLast cols).length i)
        ++ (List.range (moveRequiredLast cols).length).flatMap (fun j =>
            (List.range (cols.headD ⟨"", []⟩).vals.length).map
              (fun i => linkLeConstr i j))
        ++ (List.range (cols.headD ⟨"", []⟩).vals.length).map
            (fun i => zBoundConstr (moveRequiredLast cols)
              (moveRequiredLast cols).length i)
        ++ [countYfConstr (moveRequiredLast cols).length ((P0 : ℚ) + 1)])
      ++ [forcedConstr ((moveRequiredLast cols).length - 1)] := rfl

/-- Constraint list of the P-median solver build with a required column. -/
lemma pmediaSolverBuild_some_constrs (popu rc : List ℚ)
    (cols2 : List (List ℚ)) (P0 : ℕ) :
    (pmediaSolverBuild popu (some rc) cols2 P0).constrs =
      ((List.range (matRows cols2)).map
          (fun i => rowSumConstr ((cols2 ++ [rc]).length) i)
        ++ (List.range ((cols2 ++ [rc]).length)).flatMap (fun j =>
            (List.range (matRows cols2)).map (fun i => linkLeConstr i j))
        ++ [countYfConstr ((cols2 ++ [rc]).length) ((P0 : ℚ) + 1)])
      ++ [forcedConstr ((cols2 ++ [rc]).length - 1)] := rfl

/-- C4: in both matrix-mode solvers, when a required-distance column is
supplied, any feasible binary solution marks the synthetic last (required)
column Chosen = 1, and the number of chosen facilities among the non-required
columns equals the requested P — because the model constrains Σ_j y_j = P + 1
together with y[last] = 1. -/
theorem solver_required_forcing
    (cols : List NCol) (popu rc : List ℚ) (cols2 : List (List ℚ)) (P0 : ℕ)
    (ν₁ ν₂ : Var → ℚ)
    (hb1 : ∀ j, ν₁ (Var.yf j) = 0 ∨ ν₁ (Var.yf j) = 1)
    (hs1 : SatAll ν₁ (pcenterBuild cols true P0).constrs)
    (hb2 : ∀ j, ν₂ (Var.yf j) = 0 ∨ ν₂ (Var.yf j) = 1)
    (hs2 : SatAll ν₂ (pmediaSolverBuild popu (some rc) cols2 P0).constrs) :
    ((chosenList ν₁ cols.length).getLast? = some 1 ∧
      (List.range (cols.length - 1)).countP
        (fun j => decide (ν₁ (Var.yf j) = 1)) = P0) ∧
    ((chosenList ν₂ (cols2.length + 1)).getLast? = some 1 ∧
      (List.range cols2.length).countP
        (fun j => decide (ν₂ (Var.yf j) = 1)) = P0) := by
  constructor
  · rw [pcenterBuild_true_constrs] at hs1
    have hcount := hs1 _ (by simp : countYfConstr (moveRequiredLast cols).length
      ((P0 : ℚ) + 1) ∈ _)
    have hforced := hs1 _ (by simp :
      forcedConstr ((moveRequiredLast cols).length - 1) ∈ _)
    obtain ⟨hlast, hcnt⟩ :=
      chosen_count ν₁ (moveRequiredLast cols).length P0 hb1 hcount hforced
    rw [moveRequiredLast_length] at hlast hcnt
    exact ⟨hlast, hcnt⟩
  · have hlen2 : (cols2 ++ [rc]).length = cols2.length + 1 := by simp
    rw [pmediaSolverBuild_some_constrs] at hs2
    have hcount := hs2 _ (by simp : countYfConstr ((cols2 ++ [rc]).length)
      ((P0 : ℚ) + 1) ∈ _)
    have hforced := hs2 _ (by simp :
      forcedConstr ((cols2 ++ [rc]).length - 1) ∈ _)
    obtain ⟨hlast, hcnt⟩ :=
      chosen_count ν₂ ((cols2 ++ [rc]).length) P0 hb2 hcount hforced
    rw [hlen2] at hlast hcnt
    simp only [Nat.add_sub_cancel] at hcnt
    exact ⟨hlast, hcnt⟩

/-- Concrete use of the required-forcing theorem: one demand row, candidate
column A plus a required column, P = 1, all facilities open and the demand
assigned to column 0. -/
theorem solver_required_forcing_witness :
    (SatAll nuSolver (pcenterBuild pcenterCols true 1).constrs ∧
      SatAll nuSolver (pmediaSolverBuild [1] (some [2]) [[3]] 1).constrs) ∧
    (((chosenList nuSolver pcenterCols.length).getLast? = some 1 ∧
      (List.range (pcenterCols.length - 1)).countP
        (fun j => decide (nuSolver (Var.yf j) = 1)) = 1) ∧
    ((chosenList nuSolver (([[3]] : List (List ℚ)).length + 1)).getLast? = some 1 ∧
      (List.range ([[3]] : List (List ℚ)).length).countP
        (fun j => decide (nuSolver (Var.yf j) = 1)) = 1)) := by
  have hpc : SatAll nuSolver (pcenterBuild pcenterCols true 1).constrs := by
    have hred : (pcenterBuild pcenterCols true 1).constrs =
        [rowSumConstr 2 0, linkLeConstr 0 0, linkLeConstr 0 1,
          zBoundConstr [⟨"A", [3]⟩, ⟨"Required", [2]⟩] 2 0,
          countYfConstr 2 (((1 : ℕ) : ℚ) + 1), forcedConstr 1] := rfl
    rw [hred]
    intro c hc
    fin_cases hc <;>
      norm_num [satisfies, evalExp, rowSumConstr, linkLeConstr, zBoundConstr,
        countYfConstr, forcedConstr, matCostN, nuSolver, List.range_succ]
  have hpm : SatAll nuSolver (pmediaSolverBuild [1] (some [2]) [[3]] 1).constrs := by
    have hred : (pmediaSolverBuild [1] (some [2]) [[3]] 1).constrs =
        [rowSumConstr 2 0, linkLeConstr 0 0, linkLeConstr 0 1,
          countYfConstr 2 (((1 : ℕ) : ℚ) + 1), forcedConstr 1] := rfl
    rw [hred]
    intro c hc
    fin_cases hc <;>
      norm_num [satisfies, evalExp, rowSumConstr, linkLeConstr,
        countYfConstr, forcedConstr, nuSolver, List.range_succ]
  exact ⟨⟨hpc, hpm⟩,
    solver_required_forcing pcenterCols [1] [2] [[3]] 1 nuSolver nuSolver
      (fun _ => Or.inr rfl) hpc (fun _ => Or.inr rfl) hpm⟩

/-- C7: in the raw-list LSCP/MCLP extraction, for every demand point the
assigned facility is an open one (its solved selection variable equals 1)
minimizing the OD cost, and on ties the open facility with the lowest
candidate index wins — pandas idxmin takes the first minimal row of the
(demand, supply)-sorted frame. -/
theorem nearest_open_stable_min (rows : List ODRow) (ν : Var → ℚ) (m i : Nat)
    (hsorted : rows.Pairwise
      (fun a b => a.did < b.did ∨ (a.did = b.did ∧ a.sid < b.sid)))
    (hex : ∃ r ∈ rows, r.did = i ∧ r.sid ∈ openFacilities ν m) :
    ∃ r, nearestOpen rows (openFacilities ν m) i = some r ∧
      r ∈ rows ∧ r.did = i ∧ r.sid < m ∧ ν (Var.xf r.sid) = 1 ∧
      ∀ r2 ∈ rows, r2.did = i → r2.sid < m → ν (Var.xf r2.sid) = 1 →
        r.cost ≤ r2.cost ∧ (r2.cost = r.cost → r.sid ≤ r2.sid) := by
  have hopen : ∀ j, j ∈ openFacilities ν m ↔ j < m ∧ ν (Var.xf j) = 1 := by
    intro j
    simp [openFacilities, List.mem_filter, List.mem_range]
  have hmemc : ∀ r : ODRow,
      r ∈ rows.filter
          (fun r => r.did == i && (openFacilities ν m).contains r.sid)
        ↔ r ∈ rows ∧ r.did = i ∧ r.sid < m ∧ ν (Var.xf r.sid) = 1 := by
    intro r
    rw [List.mem_filter]
    simp [hopen r.sid, and_assoc]
  obtain ⟨r0, hr0mem, hr0did, hr0sid⟩ := hex
  have hr0 : r0 ∈ rows.filter
      (fun r => r.did == i && (openFacilities ν m).contains r.sid) := by
    refine (hmemc r0).mpr ⟨hr0mem, hr0did, ?_, ?_⟩
    · exact ((hopen r0.sid).mp hr0sid).1
    · exact ((hopen r0.sid).mp hr0sid).2
  have hne : rows.filter
      (fun r => r.did == i && (openFacilities ν m).contains r.sid) ≠ [] :=
    fun h => by rw [h] at hr0; cases hr0
  obtain ⟨b, L, hbl⟩ := List.exists_cons_of_ne_nil hne
  have hps0 : (rows.filter
      (fun r => r.did == i && (openFacilities ν m).contains r.sid)).Pairwise
        (fun a b => a.did < b.did ∨ (a.did = b.did ∧ a.sid < b.sid)) :=
    List.Pairwise.sublist (List.filter_sublist rows) hsorted
  have hps : (b :: L).Pairwise (fun a b => a.sid < b.sid) := by
    rw [← hbl]
    refine List.Pairwise.imp_of_mem ?_ hps0
    intro a c ha hc hac
    have hai : a.did = i := ((hmemc a).mp ha).2.1
    have hci : c.did = i := ((hmemc c).mp hc).2.1
    rcases hac with h | h
    · exfalso; rw [hai, hci] at h; exact lt_irrefl i h
    · exact h.2
  obtain ⟨hmem, hmin⟩ := foldl_min_spec L b hps
  have hrmem2 : (L.foldl (fun b r2 => if r2.cost < b.cost then r2 else b) b)
      ∈ rows.filter
        (fun r => r.did == i && (openFacilities ν m).contains r.sid) := by
    rw [hbl]
    exact hmem
  obtain ⟨hrrows, hrdid, hrsid, hrnu⟩ := (hmemc _).mp hrmem2
  refine ⟨L.foldl (fun b r2 => if r2.cost < b.cost then r2 else b) b,
    ?_, ?_, ?_, ?_, ?_, ?_⟩
  · unfold nearestOpen
    rw [hbl]
    rfl
  · exact hrrows
  · exact hrdid
  · exact hrsid
  · exact hrnu
  · intro r2 hr2 h2did h2sid h2nu
    have hr2f : r2 ∈ b :: L := by
      rw [← hbl]
      exact (hmemc r2).mpr ⟨hr2, h2did, h2sid, h2nu⟩
    exact hmin r2 hr2f

/-- Concrete use of the stable-minimum theorem: with both facilities open,
demand 0 has rows of equal cost 5 to supplies 0 and 1, and the extraction
picks supply 0 (the lower index). -/
theorem nearest_open_stable_min_witness :
    (tieRows.Pairwise
      (fun a b => a.did < b.did ∨ (a.did = b.did ∧ a.sid < b.sid)) ∧
      (∃ r ∈ tieRows, r.did = 0 ∧ r.sid ∈ openFacilities onesAssign 2)) ∧
    (∃ r, nearestOpen tieRows (openFacilities onesAssign 2) 0 = some r ∧
      r ∈ tieRows ∧ r.did = 0 ∧ r.sid < 2 ∧ onesAssign (Var.xf r.sid) = 1 ∧
      ∀ r2 ∈ tieRows, r2.did = 0 → r2.sid < 2 → onesAssign (Var.xf r2.sid) = 1 →
        r.cost ≤ r2.cost ∧ (r2.cost = r.cost → r.sid ≤ r2.sid)) :=
  ⟨⟨by decide, by decide⟩,
    nearest_open_stable_min tieRows onesAssign 2 0 (by decide) (by decide)⟩

end GeoLoc
